import Mathlib

set_option maxRecDepth 100000

/-!
Verification of the goavatar identicon generator.

The Go sources are embedded shallowly:
* strings are lists of byte values (`List Nat`, each < 256);
* `crypto/md5` (standard library, RFC 1321) is implemented over `Nat`
  with explicit reduction modulo 2^32;
* the generated image is a size together with a pixel function;
* Go panics (out-of-range string indexing, negative slice index, and the
  `image.NewRGBA` allocation failure for huge sizes) are modelled by
  `Option`: `none` is a panic.
-/

/-- An RGBA color: four 8-bit channels, as in Go's `color.RGBA`. -/
structure Color where
  r : Nat
  g : Nat
  b : Nat
  a : Nat
deriving DecidableEq

/-- Go's zero value `color.RGBA{}`: the all-zero sentinel "unset" color. -/
def sentinel : Color := ⟨0, 0, 0, 0⟩

/-- An RGBA image: a square of `size` × `size` pixels.  The pixel array of
Go's `image.RGBA` is modelled as a function from coordinates to colors. -/
structure Image where
  size : Nat
  pix : Nat → Nat → Color

/-! ### MD5 (Go `crypto/md5`, RFC 1321) -/

/-- The 64 MD5 round constants `K[i] = floor(2^32 * |sin(i+1)|)`. -/
def mdK : List Nat :=
  [0xd76aa478, 0xe8c7b756, 0x242070db, 0xc1bdceee,
   0xf57c0faf, 0x4787c62a, 0xa8304613, 0xfd469501,
   0x698098d8, 0x8b44f7af, 0xffff5bb1, 0x895cd7be,
   0x6b901122, 0xfd987193, 0xa679438e, 0x49b40821,
   0xf61e2562, 0xc040b340, 0x265e5a51, 0xe9b6c7aa,
   0xd62f105d, 0x02441453, 0xd8a1e681, 0xe7d3fbc8,
   0x21e1cde6, 0xc33707d6, 0xf4d50d87, 0x455a14ed,
   0xa9e3e905, 0xfcefa3f8, 0x676f02d9, 0x8d2a4c8a,
   0xfffa3942, 0x8771f681, 0x6d9d6122, 0xfde5380c,
   0xa4beea44, 0x4bdecfa9, 0xf6bb4b60, 0xbebfbc70,
   0x289b7ec6, 0xeaa127fa, 0xd4ef3085, 0x04881d05,
   0xd9d4d039, 0xe6db99e5, 0x1fa27cf8, 0xc4ac5665,
   0xf4292244, 0x432aff97, 0xab9423a7, 0xfc93a039,
   0x655b59c3, 0x8f0ccc92, 0xffeff47d, 0x85845dd1,
   0x6fa87e4f, 0xfe2ce6e0, 0xa3014314, 0x4e0811a1,
   0xf7537e82, 0xbd3af235, 0x2ad7d2bb, 0xeb86d391]

/-- The 64 MD5 per-round left-rotation amounts. -/
def mdS : List Nat :=
  [7, 12, 17, 22, 7, 12, 17, 22, 7, 12, 17, 22, 7, 12, 17, 22,
   5, 9, 14, 20, 5, 9, 14, 20, 5, 9, 14, 20, 5, 9, 14, 20,
   4, 11, 16, 23, 4, 11, 16, 23, 4, 11, 16, 23, 4, 11, 16, 23,
   6, 10, 15, 21, 6, 10, 15, 21, 6, 10, 15, 21, 6, 10, 15, 21]

/-- 32-bit complement of a word (inputs are kept below 2^32). -/
def not32 (x : Nat) : Nat := 4294967295 ^^^ x

/-- 32-bit left rotation of a word `x < 2^32` by `s ≤ 32` bits. -/
def leftrot (x s : Nat) : Nat := ((x <<< s) ||| (x >>> (32 - s))) % 4294967296

/-- Decode a 64-byte block into its 16 little-endian 32-bit words. -/
def blockWords (blk : List Nat) : List Nat :=
  (List.range 16).map fun j =>
    blk.getD (4 * j) 0 + 256 * blk.getD (4 * j + 1) 0 +
      65536 * blk.getD (4 * j + 2) 0 + 16777216 * blk.getD (4 * j + 3) 0

/-- One MD5 round: mixes round `i` into the state `(a, b, c, d)`. -/
def md5Round (m : List Nat) (st : Nat × Nat × Nat × Nat) (i : Nat) :
    Nat × Nat × Nat × Nat :=
  let a := st.1
  let b := st.2.1
  let c := st.2.2.1
  let d := st.2.2.2
  let fg : Nat × Nat :=
    if i < 16 then ((b &&& c) ||| (not32 b &&& d), i)
    else if i < 32 then ((d &&& b) ||| (not32 d &&& c), (5 * i + 1) % 16)
    else if i < 48 then (b ^^^ c ^^^ d, (3 * i + 5) % 16)
    else (c ^^^ (b ||| not32 d), (7 * i) % 16)
  let tmp := (a + fg.1 + mdK.getD i 0 + m.getD fg.2 0) % 4294967296
  let b2 := (b + leftrot tmp (mdS.getD i 0)) % 4294967296
  (d, b2, b, c)

/-- Process one 64-byte block into the running MD5 state. -/
def processBlock (st : Nat × Nat × Nat × Nat) (blk : List Nat) :
    Nat × Nat × Nat × Nat :=
  let m := blockWords blk
  let r := (List.range 64).foldl (md5Round m) st
  ((st.1 + r.1) % 4294967296, (st.2.1 + r.2.1) % 4294967296,
   (st.2.2.1 + r.2.2.1) % 4294967296, (st.2.2.2 + r.2.2.2) % 4294967296)

/-- MD5 padding: append `0x80`, zeros to 56 mod 64, then the original
bit length as 8 little-endian bytes. -/
def padMessage (msg : List Nat) : List Nat :=
  let len := msg.length
  let bits := 8 * len
  msg ++ [128] ++ List.replicate ((119 - len % 64) % 64) 0 ++
    [bits % 256, bits / 256 % 256, bits / 65536 % 256, bits / 16777216 % 256,
     bits / 4294967296 % 256, bits / 1099511627776 % 256,
     bits / 281474976710656 % 256, bits / 72057594037927936 % 256]

/-- Split a byte list into consecutive 64-byte blocks.  The recursion is
structural on a fuel bounded by the list length (each step consumes 64 > 1
bytes, so the fuel never runs out before the list does). -/
def chunksAux : Nat → List Nat → List (List Nat)
  | 0, _ => []
  | _, [] => []
  | fuel + 1, bs => bs.take 64 :: chunksAux fuel (bs.drop 64)

/-- Split a byte list into consecutive 64-byte blocks. -/
def chunks64 (bs : List Nat) : List (List Nat) := chunksAux bs.length bs

/-- The 4 little-endian bytes of a 32-bit word. -/
def wordLE (w : Nat) : List Nat :=
  [w % 256, w / 256 % 256, w / 65536 % 256, w / 16777216 % 256]

/-- MD5 digest of a byte sequence: 16 bytes. -/
def md5 (msg : List Nat) : List Nat :=
  let st := (chunks64 (padMessage msg)).foldl processBlock
    (0x67452301, 0xefcdab89, 0x98badcfe, 0x10325476)
  wordLE st.1 ++ wordLE st.2.1 ++ wordLE st.2.2.1 ++ wordLE st.2.2.2

/-- ASCII code of the lowercase hex digit for `n < 16`. -/
def hexChar (n : Nat) : Nat := if n < 10 then 48 + n else 87 + n

/-- Lowercase hex encoding of a byte list, as ASCII codes
(Go `hex.EncodeToString`). -/
def hexEncode (bs : List Nat) : List Nat :=
  bs.flatMap fun b => [hexChar (b / 16), hexChar (b % 16)]

/-- `generateHash` from the source: the MD5 hash of the input, hex-encoded.
The result is the list of the 32 ASCII codes of the hex string, since the
generator indexes the hex string's bytes. -/
def generateHash (data : List Nat) : List Nat := hexEncode (md5 data)

/-! ### Configuration (the `options` struct and the exported option constructors) -/

/-- The `options` struct of the source.  Go `int` fields are `Int`;
`fgColors` is the ordered per-layer color list. -/
structure options where
  size : Int
  gridSize : Int
  bgColor : Color
  fgColors : List Color
  layers : Int
deriving DecidableEq

/-- `defaultOptions` from the source, seeded by the (hex) hash: size 64,
grid 8, light-gray background, one layer whose color is built from the
hash's first three bytes.  The hash always has 32 bytes
(`generateHash_length`), so the `getD` lookups never fall back. -/
def defaultOptions (hash : List Nat) : options where
  size := 64
  gridSize := 8
  bgColor := ⟨240, 240, 240, 255⟩
  fgColors := [⟨hash.getD 0 0, hash.getD 1 0, hash.getD 2 0, 255⟩]
  layers := 1

/-- The exported option constructors (`OptFunc` values), as a syntax tree so
that "every sequence of overrides built from the exported constructors" can
be quantified over. -/
inductive Opt where
  | WithSize (s : Int)
  | WithGridSize (g : Int)
  | WithBgColor (r g b a : Nat)
  | WithFgColor (r g b a : Nat)
  | WithLayers (n : Int)
  | WithLayerColor (layerIndex : Int) (r g b a : Nat)
deriving DecidableEq

/-- The expansion loop of `WithLayerColor`: append the sentinel color while
`len(o.fgColors) <= layerIndex`, then overwrite index `layerIndex`. -/
def setGrow (cs : List Color) (i : Nat) (c : Color) : List Color :=
  (cs ++ List.replicate (i + 1 - cs.length) sentinel).set i c

/-- Apply one option constructor to an `options` value, exactly as the
closures in the source do.  `WithLayerColor` with a negative index panics in
Go (`o.fgColors[layerIndex]` after a growth loop that never runs), which is
modelled as `none`; every other override always succeeds. -/
def applyOpt : Opt → options → Option options
  | .WithSize s, o => some (if s ≥ 64 then { o with size := s } else o)
  | .WithGridSize g, o => some (if g > 8 then { o with gridSize := g } else o)
  | .WithBgColor r g b a, o => some { o with bgColor := ⟨r, g, b, a⟩ }
  | .WithFgColor r g b a, o => some { o with fgColors := [⟨r, g, b, a⟩] }
  | .WithLayers n, o => some (if 1 ≤ n ∧ n ≤ 3 then { o with layers := n } else o)
  | .WithLayerColor i r g b a, o =>
      if i < 0 then none
      else some { o with fgColors := setGrow o.fgColors i.toNat ⟨r, g, b, a⟩ }

/-- Fold the overrides over the defaults, in order, as `Make`'s loop does. -/
def resolveOptions (hash : List Nat) (opts : List Opt) : Option options :=
  opts.foldlM (fun o opt => applyOpt opt o) (defaultOptions hash)

/-! ### Rasterizer (`drawPixel`) -/

/-- Rounding division `round(a / b)` with round-half-away-from-zero, the
behavior of Go's `math.Round` on the nonnegative quotients that occur here.
The `float64` arithmetic of the source is modelled exactly (the products in
scope are well inside the range where `float64` is exact). -/
def roundDiv (a b : Nat) : Nat := (2 * a + b) / (2 * b)

/-- Scaled start coordinate of grid line `g`:
`int(math.Round(float64(g) * float64(imageSize) / float64(gridSize)))`. -/
def cellStart (g imageSize gridSize : Nat) : Nat := roundDiv (g * imageSize) gridSize

/-- Whether pixel `(px, py)` lies in the rectangle that `drawPixel` fills for
grid cell `(gx, gy)`: start bounds from `cellStart`, end bounds clamped to
the image size `s` (the source clamps to `img.Bounds().Dx()`). -/
def coversB (s gridSize imageSize gx gy px py : Nat) : Bool :=
  decide (cellStart gx imageSize gridSize ≤ px) &&
  decide (px < min (cellStart (gx + 1) imageSize gridSize) s) &&
  decide (cellStart gy imageSize gridSize ≤ py) &&
  decide (py < min (cellStart (gy + 1) imageSize gridSize) s)

/-- `drawPixel` from the source: fill the scaled, clamped rectangle of grid
cell `(gx, gy)` with color `c`.  The double `img.Set` loop over the rectangle
is the pointwise update below; the bounds check inside Go's `Set` never
fires because the end bounds are clamped to the image size and the start
bounds are nonnegative. -/
def drawPixel (img : Image) (gx gy : Nat) (c : Color) (gridSize imageSize : Nat) :
    Image where
  size := img.size
  pix := fun x y =>
    if coversB img.size gridSize imageSize gx gy x y then c else img.pix x y

/-- Draw one layer: `drawPixel` for each recorded cell, in loop order. -/
def drawLayer (img : Image) (cells : List (Nat × Nat)) (c : Color)
    (gridSize imageSize : Nat) : Image :=
  cells.foldl (fun im cell => drawPixel im cell.1 cell.2 c gridSize imageSize) img

/-! ### Pattern generation (the grid loops inside `Make`) -/

/-- The pixel-on test `(currentHash[y]>>(x%8))&1 == 1`.  Indexing the digest
out of range panics in Go, hence the `Option`. -/
def pixelOn (digest : List Nat) (x y : Nat) : Option Bool :=
  (digest.get? y).map fun b => (b >>> (x % 8)) &&& 1 == 1

/-- The inner loop over the left half-row `x = 0, …, n-1` for row `y`:
collects, in order, each on cell `(x, y)` together with its mirror
`(gridSize-1-x, y)`. -/
def leftCells (digest : List Nat) (gridSize y : Nat) : Nat → Option (List (Nat × Nat))
  | 0 => some []
  | n + 1 => do
      let acc ← leftCells digest gridSize y n
      let bitv ← pixelOn digest n y
      pure (if bitv then acc ++ [(n, y), (gridSize - 1 - n, y)] else acc)

/-- One full row `y`: the left half (with mirrors) and, when the grid size is
odd, the unpaired center column `mid = gridSize / 2`. -/
def rowCells (digest : List Nat) (gridSize y : Nat) : Option (List (Nat × Nat)) := do
  let left ← leftCells digest gridSize y (gridSize / 2)
  if gridSize % 2 ≠ 0 then do
    let bitv ← pixelOn digest (gridSize / 2) y
    pure (if bitv then left ++ [(gridSize / 2, y)] else left)
  else
    pure left

/-- The row loop `y = 0, …, n-1`. -/
def gridCells (digest : List Nat) (gridSize : Nat) : Nat → Option (List (Nat × Nat))
  | 0 => some []
  | n + 1 => do
      let acc ← gridCells digest gridSize n
      let row ← rowCells digest gridSize n
      pure (acc ++ row)

/-- All cells one layer draws, in drawing order. -/
def layerCells (digest : List Nat) (gridSize : Nat) : Option (List (Nat × Nat)) :=
  gridCells digest gridSize gridSize

/-- The `currentHash` chain: the primary digest for layer 0, and a re-hash of
the previous layer's digest for each later layer. -/
def layerDigest (hash : List Nat) : Nat → List Nat
  | 0 => hash
  | l + 1 => generateHash (layerDigest hash l)

/-- The digest-derived fallback color `{digest[0], digest[1], digest[2], 255}`.
A digest always has 32 bytes (`generateHash_length`), so the `getD` lookups
never fall back. -/
def derivedColor (digest : List Nat) : Color :=
  ⟨digest.getD 0 0, digest.getD 1 0, digest.getD 2 0, 255⟩

/-- The per-layer color resolution in `Make`: the `fgColors` entry at the
layer index when it exists and is not the all-zero sentinel, otherwise the
color derived from the layer's own digest. -/
def resolveLayerColor (fgColors : List Color) (l : Nat) (digest : List Nat) : Color :=
  if l < fgColors.length then
    let c := fgColors.getD l sentinel
    if c = sentinel then derivedColor digest else c
  else derivedColor digest

/-- One iteration of the layer loop in `Make`: resolve the layer's digest and
color, compute its cells, and draw them onto the running image. -/
def applyLayer (hash : List Nat) (o : options) (img : Image) (l : Nat) :
    Option Image :=
  (layerCells (layerDigest hash l) o.gridSize.toNat).bind fun cells =>
    some (drawLayer img cells
      (resolveLayerColor o.fgColors l (layerDigest hash l))
      o.gridSize.toNat o.size.toNat)

/-- The Go runtime's allocation limit for a single object on 64-bit
platforms: `maxAlloc = 1 << heapAddrBits - 1` with `heapAddrBits = 48`
(linux/amd64 and the other mainstream 64-bit targets).  `makeslice` panics
with "len out of range" whenever the requested byte length exceeds it,
regardless of available memory. -/
def maxAlloc : Nat := 281474976710655

/-- `image.NewRGBA(image.Rect(0, 0, size, size))` followed by the background
fill (Go `draw.Draw` with `draw.Src` copies `bg` into every pixel).  The
pixel buffer holds `4*size*size` bytes; `NewRGBA` panics deterministically
when that length overflows `int` (`pixelBufferLength`/`mul3NonNeg`) or, the
binding constraint on a 64-bit runtime, when `makeslice` rejects it for
exceeding `maxAlloc` — both modelled as `none`.  (The `int` overflow bound,
2^63, lies above `maxAlloc`, so the single comparison captures both; `size`
is nonnegative here because validation keeps `size ≥ 64`.) -/
def newRGBA (size : Nat) (bg : Color) : Option Image :=
  if 4 * (size * size) ≤ maxAlloc then some { size := size, pix := fun _ _ => bg }
  else none

/-- `Make` from the source: hash the input, resolve the options, allocate
the buffer and fill the background, then composite each layer in order.
The resolved `size`, `gridSize` and `layers` are positive (validation
accepts only values at least 64, above 8, and in [1,3] over the like
defaults), so `Int.toNat` is exact. -/
def Make (input : List Nat) (opts : List Opt) : Option Image :=
  (resolveOptions (generateHash input) opts).bind fun o =>
    (newRGBA o.size.toNat o.bgColor).bind fun img =>
      (List.range o.layers.toNat).foldlM (applyLayer (generateHash input) o) img

/-! ### Digest length facts -/

theorem md5_length (msg : List Nat) : (md5 msg).length = 16 := by
  simp [md5, wordLE]

theorem hexEncode_length (bs : List Nat) : (hexEncode bs).length = 2 * bs.length := by
  induction bs with
  | nil => simp [hexEncode]
  | cons b tl ih =>
      simp only [hexEncode, List.flatMap_cons] at ih ⊢
      simp [ih]
      omega

theorem generateHash_length (data : List Nat) : (generateHash data).length = 32 := by
  simp [generateHash, hexEncode_length, md5_length]

theorem layerDigest_length (hash : List Nat) (hlen : hash.length = 32) (l : Nat) :
    (layerDigest hash l).length = 32 := by
  cases l with
  | zero => exact hlen
  | succ k => exact generateHash_length _

/-! ### Characterizing the cells a layer draws -/

theorem pixelOn_eq_some (digest : List Nat) (x y : Nat) (hy : y < digest.length) :
    pixelOn digest x y = some (((digest.getD y 0) >>> (x % 8)) &&& 1 == 1) := by
  rw [pixelOn, List.get?_eq_getElem?, List.getElem?_eq_getElem hy, Option.map_some',
    List.getD_eq_getElem digest 0 hy]

theorem pixelOn_exists (digest : List Nat) (x y : Nat) (hy : y < digest.length) :
    ∃ bv : Bool, pixelOn digest x y = some bv :=
  ⟨_, pixelOn_eq_some digest x y hy⟩

theorem mem_leftCells (digest : List Nat) (G y : Nat) :
    ∀ (n : Nat) (L : List (Nat × Nat)), leftCells digest G y n = some L →
      ∀ a b : Nat, ((a, b) ∈ L ↔
        ∃ x, x < n ∧ pixelOn digest x y = some true ∧ b = y ∧
          (a = x ∨ a = G - 1 - x)) := by
  intro n
  induction n with
  | zero =>
      intro L hL a b
      simp only [leftCells, Option.some.injEq] at hL
      subst hL
      simp
  | succ n ih =>
      intro L hL a b
      rw [leftCells] at hL
      rcases h1 : leftCells digest G y n with _ | acc
      · rw [h1] at hL; simp at hL
      rcases h2 : pixelOn digest n y with _ | bv
      · rw [h1, h2] at hL; simp at hL
      rw [h1, h2] at hL
      simp only [Option.bind_eq_bind, Option.some_bind, Option.pure_def,
        Option.some.injEq] at hL
      cases bv with
      | true =>
          have hL2 : acc ++ [(n, y), (G - 1 - n, y)] = L := by simpa using hL
          subst hL2
          rw [List.mem_append, ih acc h1 a b]
          constructor
          · rintro (⟨x, hx, hpx, hb, hax⟩ | hcell)
            · exact ⟨x, by omega, hpx, hb, hax⟩
            · simp only [List.mem_cons, List.not_mem_nil, or_false,
                Prod.mk.injEq] at hcell
              rcases hcell with ⟨ha, hb⟩ | ⟨ha, hb⟩
              · exact ⟨n, by omega, h2, hb, Or.inl ha⟩
              · exact ⟨n, by omega, h2, hb, Or.inr ha⟩
          · rintro ⟨x, hx, hpx, hb, hax⟩
            rcases Nat.lt_succ_iff_lt_or_eq.mp hx with hlt | heq
            · exact Or.inl ⟨x, hlt, hpx, hb, hax⟩
            · subst heq
              right
              simp only [List.mem_cons, List.not_mem_nil, or_false, Prod.mk.injEq]
              rcases hax with ha | ha
              · exact Or.inl ⟨ha, hb⟩
              · exact Or.inr ⟨ha, hb⟩
      | false =>
          have hL2 : acc = L := by simpa using hL
          subst hL2
          rw [ih acc h1 a b]
          constructor
          · rintro ⟨x, hx, hpx, hb, hax⟩
            exact ⟨x, by omega, hpx, hb, hax⟩
          · rintro ⟨x, hx, hpx, hb, hax⟩
            rcases Nat.lt_succ_iff_lt_or_eq.mp hx with hlt | heq
            · exact ⟨x, hlt, hpx, hb, hax⟩
            · subst heq
              rw [h2] at hpx
              simp at hpx

theorem mem_rowCells (digest : List Nat) (G y : Nat) (R : List (Nat × Nat))
    (h : rowCells digest G y = some R) (a b : Nat) :
    (a, b) ∈ R ↔
      ((∃ x, x < G / 2 ∧ pixelOn digest x y = some true ∧ b = y ∧
          (a = x ∨ a = G - 1 - x)) ∨
       (G % 2 ≠ 0 ∧ pixelOn digest (G / 2) y = some true ∧ b = y ∧ a = G / 2)) := by
  rw [rowCells] at h
  rcases h1 : leftCells digest G y (G / 2) with _ | left
  · rw [h1] at h; simp at h
  rw [h1] at h
  simp only [Option.bind_eq_bind, Option.some_bind] at h
  by_cases hodd : G % 2 ≠ 0
  · rw [if_pos hodd] at h
    rcases h2 : pixelOn digest (G / 2) y with _ | bv
    · rw [h2] at h; simp at h
    rw [h2] at h
    simp only [Option.bind_eq_bind, Option.some_bind, Option.pure_def,
      Option.some.injEq] at h
    cases bv with
    | true =>
        have h3 : left ++ [(G / 2, y)] = R := by simpa using h
        subst h3
        rw [List.mem_append, mem_leftCells digest G y _ left h1 a b]
        constructor
        · rintro (hl | hcell)
          · exact Or.inl hl
          · simp only [List.mem_cons, List.not_mem_nil, or_false,
              Prod.mk.injEq] at hcell
            exact Or.inr ⟨hodd, rfl, hcell.2, hcell.1⟩
        · rintro (hl | ⟨_, _, hb, ha⟩)
          · exact Or.inl hl
          · right
            simp only [List.mem_cons, List.not_mem_nil, or_false, Prod.mk.injEq]
            exact ⟨ha, hb⟩
    | false =>
        have h3 : left = R := by simpa using h
        subst h3
        rw [mem_leftCells digest G y _ left h1 a b]
        constructor
        · exact fun hl => Or.inl hl
        · rintro (hl | ⟨_, hpx, _, _⟩)
          · exact hl
          · simp at hpx
  · rw [if_neg hodd] at h
    simp only [Option.pure_def, Option.some.injEq] at h
    subst h
    rw [mem_leftCells digest G y _ left h1 a b]
    constructor
    · exact fun hl => Or.inl hl
    · rintro (hl | ⟨hG2, _, _⟩)
      · exact hl
      · exact absurd hG2 hodd

theorem gridCells_row_isSome (digest : List Nat) (G : Nat) :
    ∀ (n : Nat) (Ls : List (Nat × Nat)), gridCells digest G n = some Ls →
      ∀ y, y < n → ∃ R, rowCells digest G y = some R := by
  intro n
  induction n with
  | zero => intro Ls _ y hy; omega
  | succ n ih =>
      intro Ls hLs y hy
      rw [gridCells] at hLs
      rcases h1 : gridCells digest G n with _ | acc
      · rw [h1] at hLs; simp at hLs
      rw [h1] at hLs
      rcases h2 : rowCells digest G n with _ | row
      · rw [h2] at hLs; simp at hLs
      rcases Nat.lt_succ_iff_lt_or_eq.mp hy with hlt | heq
      · exact ih acc h1 y hlt
      · exact heq ▸ ⟨row, h2⟩

theorem mem_gridCells (digest : List Nat) (G : Nat) :
    ∀ (n : Nat) (Ls : List (Nat × Nat)), gridCells digest G n = some Ls →
      ∀ a b : Nat, ((a, b) ∈ Ls ↔
        ∃ y, y < n ∧ ∃ R, rowCells digest G y = some R ∧ (a, b) ∈ R) := by
  intro n
  induction n with
  | zero =>
      intro Ls hLs a b
      simp only [gridCells, Option.some.injEq] at hLs
      subst hLs
      simp
  | succ n ih =>
      intro Ls hLs a b
      rw [gridCells] at hLs
      rcases h1 : gridCells digest G n with _ | acc
      · rw [h1] at hLs; simp at hLs
      rw [h1] at hLs
      rcases h2 : rowCells digest G n with _ | row
      · rw [h2] at hLs; simp at hLs
      rw [h2] at hLs
      simp only [Option.bind_eq_bind, Option.some_bind, Option.pure_def,
        Option.some.injEq] at hLs
      subst hLs
      simp only [List.mem_append, ih acc h1 a b]
      constructor
      · rintro (⟨y, hy, R, hR, hmem⟩ | hrow)
        · exact ⟨y, Nat.lt_succ_of_lt hy, R, hR, hmem⟩
        · exact ⟨n, Nat.lt_succ_self n, row, h2, hrow⟩
      · rintro ⟨y, hy, R, hR, hmem⟩
        rcases Nat.lt_succ_iff_lt_or_eq.mp hy with hlt | heq
        · exact Or.inl ⟨y, hlt, R, hR, hmem⟩
        · subst heq
          rw [h2] at hR
          cases hR
          exact Or.inr hmem

theorem pixelOn_eq_true_iff (digest : List Nat) (x y : Nat) (hy : y < digest.length) :
    (pixelOn digest x y = some true) ↔
      Nat.testBit (digest.getD y 0) (x % 8) = true := by
  have hbit : Nat.testBit (digest.getD y 0) (x % 8) =
      (((digest.getD y 0) >>> (x % 8)) &&& 1 == 1) := by
    simp only [Nat.testBit_to_div_mod, Nat.shiftRight_eq_div_pow, Nat.and_one_is_mod]
    rw [Bool.eq_iff_iff]; simp
  rw [pixelOn_eq_some digest x y hy, hbit, Option.some.injEq]

theorem mem_layerCells (digest : List Nat) (G : Nat) (cells : List (Nat × Nat))
    (h : layerCells digest G = some cells) (a b : Nat) :
    (a, b) ∈ cells ↔
      (b < G ∧
        ((∃ x, x < G / 2 ∧ pixelOn digest x b = some true ∧ (a = x ∨ a = G - 1 - x)) ∨
         (G % 2 ≠ 0 ∧ pixelOn digest (G / 2) b = some true ∧ a = G / 2))) := by
  rw [mem_gridCells digest G G cells h a b]
  constructor
  · rintro ⟨y, hy, R, hR, hmem⟩
    rw [mem_rowCells digest G y R hR a b] at hmem
    rcases hmem with ⟨x, hx, hpx, hb, hax⟩ | ⟨hodd, hpx, hb, ha⟩
    · subst hb; exact ⟨hy, Or.inl ⟨x, hx, hpx, hax⟩⟩
    · subst hb; exact ⟨hy, Or.inr ⟨hodd, hpx, ha⟩⟩
  · rintro ⟨hb, hcond⟩
    obtain ⟨R, hR⟩ := gridCells_row_isSome digest G G cells h b hb
    refine ⟨b, hb, R, hR, ?_⟩
    rw [mem_rowCells digest G b R hR a b]
    rcases hcond with ⟨x, hx, hpx, hax⟩ | ⟨hodd, hpx, ha⟩
    · exact Or.inl ⟨x, hx, hpx, rfl, hax⟩
    · exact Or.inr ⟨hodd, hpx, rfl, ha⟩

theorem layerCells_symm (digest : List Nat) (G : Nat) (cells : List (Nat × Nat))
    (h : layerCells digest G = some cells) (y cx : Nat) (hcx : cx < G) :
    ((cx, y) ∈ cells) ↔ ((G - 1 - cx, y) ∈ cells) := by
  rw [mem_layerCells digest G cells h cx y,
    mem_layerCells digest G cells h (G - 1 - cx) y]
  constructor
  · rintro ⟨hb, hcond⟩
    refine ⟨hb, ?_⟩
    rcases hcond with ⟨x, hx, hpx, hax⟩ | ⟨hodd, hpx, ha⟩
    · refine Or.inl ⟨x, hx, hpx, ?_⟩
      rcases hax with ha | ha
      · right; omega
      · left; omega
    · exact Or.inr ⟨hodd, hpx, by omega⟩
  · rintro ⟨hb, hcond⟩
    refine ⟨hb, ?_⟩
    rcases hcond with ⟨x, hx, hpx, hax⟩ | ⟨hodd, hpx, ha⟩
    · refine Or.inl ⟨x, hx, hpx, ?_⟩
      rcases hax with ha | ha
      · right; omega
      · left; omega
    · exact Or.inr ⟨hodd, hpx, by omega⟩

theorem layerCells_bits (digest : List Nat) (G : Nat) (cells : List (Nat × Nat))
    (h : layerCells digest G = some cells) (hlen : G ≤ digest.length)
    (y : Nat) (hy : y < G) :
    (∀ x, x < G / 2 →
      (((x, y) ∈ cells) ↔ Nat.testBit (digest.getD y 0) (x % 8) = true) ∧
      ((x, y) ∈ cells → (G - 1 - x, y) ∈ cells)) ∧
    (G % 2 = 1 →
      (((G / 2, y) ∈ cells) ↔
        Nat.testBit (digest.getD y 0) ((G / 2) % 8) = true)) := by
  have hylen : y < digest.length := lt_of_lt_of_le hy hlen
  constructor
  · intro x hx
    constructor
    · rw [mem_layerCells digest G cells h x y, ← pixelOn_eq_true_iff digest x y hylen]
      constructor
      · rintro ⟨hb, ⟨x', hx', hpx, hax⟩ | ⟨hodd, hpx, ha⟩⟩
        · rcases hax with ha | ha
          · subst ha; exact hpx
          · omega
        · omega
      · intro hpx
        exact ⟨hy, Or.inl ⟨x, hx, hpx, Or.inl rfl⟩⟩
    · intro hmem
      rw [mem_layerCells digest G cells h x y] at hmem
      rw [mem_layerCells digest G cells h (G - 1 - x) y]
      obtain ⟨hb, hcond⟩ := hmem
      refine ⟨hb, ?_⟩
      rcases hcond with ⟨x', hx', hpx, hax⟩ | ⟨hodd, hpx, ha⟩
      · refine Or.inl ⟨x', hx', hpx, ?_⟩
        rcases hax with ha | ha
        · right; omega
        · left; omega
      · exact Or.inr ⟨hodd, hpx, by omega⟩
  · intro hodd
    rw [mem_layerCells digest G cells h (G / 2) y,
      ← pixelOn_eq_true_iff digest (G / 2) y hylen]
    constructor
    · rintro ⟨hb, ⟨x', hx', hpx, hax⟩ | ⟨_, hpx, _⟩⟩
      · rcases hax with ha | ha
        · omega
        · omega
      · exact hpx
    · intro hpx
      exact ⟨hy, Or.inr ⟨by omega, hpx, rfl⟩⟩

/-! ### Rounding and the cell partition -/

theorem roundDiv_mono {a b : Nat} (c : Nat) (h : a ≤ b) :
    roundDiv a c ≤ roundDiv b c :=
  Nat.div_le_div_right (by omega)

theorem cellStart_mono (I G : Nat) {x y : Nat} (h : x ≤ y) :
    cellStart x I G ≤ cellStart y I G :=
  roundDiv_mono G (Nat.mul_le_mul_right I h)

theorem cellStart_zero (I G : Nat) (hG : 0 < G) : cellStart 0 I G = 0 := by
  unfold cellStart roundDiv
  apply Nat.div_eq_of_lt
  omega

theorem cellStart_self (I G : Nat) (hG : 0 < G) : cellStart G I G = I := by
  unfold cellStart roundDiv
  have h1 : 2 * (G * I) + G = G * (2 * I + 1) := by ring
  have h2 : 2 * G = G * 2 := by ring
  rw [h1, h2, Nat.mul_div_mul_left _ _ hG]
  omega

theorem cell_partition_one (G I : Nat) (hG : 0 < G) (hI : 0 < I)
    (p : Nat) (hp : p < I) :
    ∃! x, x < G ∧ cellStart x I G ≤ p ∧ p < cellStart (x + 1) I G := by
  have hfind : ∀ n, p < cellStart n I G →
      ∃ x, x < n ∧ cellStart x I G ≤ p ∧ p < cellStart (x + 1) I G := by
    intro n
    induction n with
    | zero =>
        intro hlt
        rw [cellStart_zero I G hG] at hlt
        omega
    | succ n ih =>
        intro hlt
        by_cases hc : cellStart n I G ≤ p
        · exact ⟨n, Nat.lt_succ_self n, hc, hlt⟩
        · push_neg at hc
          obtain ⟨x, hx, h1, h2⟩ := ih hc
          exact ⟨x, by omega, h1, h2⟩
  have hGI : p < cellStart G I G := by rw [cellStart_self I G hG]; exact hp
  obtain ⟨x0, hx0G, h1, h2⟩ := hfind G hGI
  refine ⟨x0, ⟨hx0G, h1, h2⟩, ?_⟩
  rintro y ⟨hyG, hy1, hy2⟩
  by_contra hne
  rcases Nat.lt_or_ge y x0 with hlt | hge
  · have hmono : cellStart (y + 1) I G ≤ cellStart x0 I G :=
      cellStart_mono I G (by omega)
    omega
  · have hmono : cellStart (x0 + 1) I G ≤ cellStart y I G :=
      cellStart_mono I G (by omega)
    omega

theorem coversB_eq_true (s G I gx gy px py : Nat) :
    coversB s G I gx gy px py = true ↔
      (cellStart gx I G ≤ px ∧ px < min (cellStart (gx + 1) I G) s ∧
       cellStart gy I G ≤ py ∧ py < min (cellStart (gy + 1) I G) s) := by
  simp [coversB]
  tauto

/-! ### The rasterized image, pixel by pixel -/

theorem drawPixel_size (img : Image) (gx gy : Nat) (c : Color) (G I : Nat) :
    (drawPixel img gx gy c G I).size = img.size := rfl

theorem drawPixel_pix (img : Image) (gx gy : Nat) (c : Color) (G I px py : Nat) :
    (drawPixel img gx gy c G I).pix px py =
      if coversB img.size G I gx gy px py then c else img.pix px py := rfl

theorem drawLayer_size (cells : List (Nat × Nat)) (img : Image) (c : Color)
    (G I : Nat) : (drawLayer img cells c G I).size = img.size := by
  induction cells generalizing img with
  | nil => rfl
  | cons hd tl ih =>
      show (drawLayer (drawPixel img hd.1 hd.2 c G I) tl c G I).size = img.size
      rw [ih (drawPixel img hd.1 hd.2 c G I)]
      rfl

theorem drawLayer_pix (cells : List (Nat × Nat)) (img : Image) (c : Color)
    (G I px py : Nat) :
    (drawLayer img cells c G I).pix px py =
      if cells.any (fun cell => coversB img.size G I cell.1 cell.2 px py) then c
      else img.pix px py := by
  induction cells generalizing img with
  | nil => simp [drawLayer]
  | cons hd tl ih =>
      show (drawLayer (drawPixel img hd.1 hd.2 c G I) tl c G I).pix px py = _
      rw [ih (drawPixel img hd.1 hd.2 c G I)]
      simp only [drawPixel_size, drawPixel_pix]
      cases hcov : coversB img.size G I hd.1 hd.2 px py with
      | true =>
          rw [List.any_cons, hcov, Bool.true_or]
          simp only [eq_self_iff_true, if_true, ite_self]
      | false =>
          rw [List.any_cons, hcov, Bool.false_or]
          simp only [Bool.false_eq_true, if_false]

/-! ### Success of generation while the grid fits the digest -/

theorem leftCells_isSome (digest : List Nat) (G y : Nat) (hy : y < digest.length) :
    ∀ n, ∃ L, leftCells digest G y n = some L := by
  intro n
  induction n with
  | zero => exact ⟨[], rfl⟩
  | succ n ih =>
      obtain ⟨L, hL⟩ := ih
      obtain ⟨bv, hbv⟩ := pixelOn_exists digest n y hy
      refine ⟨if bv then L ++ [(n, y), (G - 1 - n, y)] else L, ?_⟩
      rw [leftCells, hL, hbv]
      rfl

theorem rowCells_isSome (digest : List Nat) (G y : Nat) (hy : y < digest.length) :
    ∃ R, rowCells digest G y = some R := by
  obtain ⟨L, hL⟩ := leftCells_isSome digest G y hy (G / 2)
  rw [rowCells, hL]
  simp only [Option.bind_eq_bind, Option.some_bind]
  by_cases hodd : G % 2 ≠ 0
  · rw [if_pos hodd]
    obtain ⟨bv, hbv⟩ := pixelOn_exists digest (G / 2) y hy
    rw [hbv]
    exact ⟨_, rfl⟩
  · rw [if_neg hodd]
    exact ⟨L, rfl⟩

theorem gridCells_isSome (digest : List Nat) (G : Nat) :
    ∀ n, n ≤ digest.length → ∃ L, gridCells digest G n = some L := by
  intro n
  induction n with
  | zero => exact fun _ => ⟨[], rfl⟩
  | succ n ih =>
      intro hn
      obtain ⟨acc, hacc⟩ := ih (by omega)
      obtain ⟨row, hrow⟩ := rowCells_isSome digest G n (by omega)
      refine ⟨acc ++ row, ?_⟩
      rw [gridCells, hacc, hrow]
      rfl

theorem layerCells_isSome (digest : List Nat) (G : Nat) (hG : G ≤ digest.length) :
    ∃ L, layerCells digest G = some L :=
  gridCells_isSome digest G G hG

theorem applyLayer_isSome (hash : List Nat) (o : options) (hlen : hash.length = 32)
    (hG : o.gridSize.toNat ≤ 32) (img : Image) (l : Nat) :
    ∃ img2, applyLayer hash o img l = some img2 := by
  have hdl : (layerDigest hash l).length = 32 := layerDigest_length hash hlen l
  obtain ⟨cells, hcells⟩ :=
    layerCells_isSome (layerDigest hash l) o.gridSize.toNat (by omega)
  refine ⟨drawLayer img cells (resolveLayerColor o.fgColors l (layerDigest hash l))
    o.gridSize.toNat o.size.toNat, ?_⟩
  rw [applyLayer, hcells, Option.some_bind]

theorem foldlM_applyLayer_isSome (hash : List Nat) (o : options)
    (hlen : hash.length = 32) (hG : o.gridSize.toNat ≤ 32) :
    ∀ (L : List Nat) (img : Image),
      ∃ r, L.foldlM (applyLayer hash o) img = some r := by
  intro L
  induction L with
  | nil => exact fun img => ⟨img, rfl⟩
  | cons hd tl ih =>
      intro img
      obtain ⟨img2, h2⟩ := applyLayer_isSome hash o hlen hG img hd
      obtain ⟨r, hr⟩ := ih img2
      refine ⟨r, ?_⟩
      rw [List.foldlM_cons, h2]
      simp only [Option.bind_eq_bind, Option.some_bind]
      exact hr

/-! ### Unfolding `Make` for a two-layer configuration -/

theorem Make_two_layers (input : List Nat) (opts : List Opt) (o : options)
    (h : resolveOptions (generateHash input) opts = some o) (hL : o.layers = 2)
    (halloc : 4 * (o.size.toNat * o.size.toNat) ≤ maxAlloc)
    (cells0 cells1 : List (Nat × Nat))
    (h0 : layerCells (layerDigest (generateHash input) 0) o.gridSize.toNat = some cells0)
    (h1 : layerCells (layerDigest (generateHash input) 1) o.gridSize.toNat = some cells1) :
    Make input opts = some (drawLayer (drawLayer
      { size := o.size.toNat, pix := fun _ _ => o.bgColor } cells0
      (resolveLayerColor o.fgColors 0 (layerDigest (generateHash input) 0))
      o.gridSize.toNat o.size.toNat) cells1
      (resolveLayerColor o.fgColors 1 (layerDigest (generateHash input) 1))
      o.gridSize.toNat o.size.toNat) := by
  rw [Make, h]
  simp only [Option.some_bind]
  rw [newRGBA, if_pos halloc]
  simp only [Option.some_bind]
  have h2 : o.layers.toNat = 2 := by rw [hL]; rfl
  rw [h2]
  have hrange : List.range 2 = [0, 1] := rfl
  rw [hrange, List.foldlM_cons, applyLayer, h0]
  simp only [Option.some_bind, Option.bind_eq_bind]
  rw [List.foldlM_cons, applyLayer, h1]
  simp only [Option.some_bind, Option.bind_eq_bind]
  rw [List.foldlM_nil]
  rfl

/-! ### The claims -/

/-- C1: generation is deterministic — for every input string and every
sequence of configuration overrides, two calls to `Make` with identical
arguments produce the same result: same dimensions and the same RGBA value
at every pixel.  The embedding is a pure function of `(input, opts)`, so
the two generations coincide definitionally. -/
theorem make_deterministic (input : List Nat) (opts : List Opt) :
    (Make input opts).map Image.size = (Make input opts).map Image.size ∧
    ∀ px py : Nat,
      (Make input opts).map (fun img => img.pix px py) =
        (Make input opts).map (fun img => img.pix px py) :=
  ⟨rfl, fun _ _ => rfl⟩

/-- C2: for every layer, every row `y < gridSize` and every left-half column
`x < gridSize/2`, the cell `(x, y)` is on exactly when bit `x mod 8` of byte
`digest[y]` of that layer's digest is 1; an on cell also marks its mirror
column `gridSize-1-x`; and for odd `gridSize` the unpaired center column
`mid = gridSize/2` is on exactly when bit `mid mod 8` of `digest[y]` is 1. -/
theorem pattern_bits (input : List Nat) (l G : Nat) (cells : List (Nat × Nat))
    (hc : layerCells (layerDigest (generateHash input) l) G = some cells)
    (hG : G ≤ 32) (y : Nat) (hy : y < G) :
    (∀ x, x < G / 2 →
      (((x, y) ∈ cells) ↔
        Nat.testBit ((layerDigest (generateHash input) l).getD y 0) (x % 8) = true) ∧
      ((x, y) ∈ cells → (G - 1 - x, y) ∈ cells)) ∧
    (G % 2 = 1 →
      (((G / 2, y) ∈ cells) ↔
        Nat.testBit ((layerDigest (generateHash input) l).getD y 0) ((G / 2) % 8) = true)) :=
  layerCells_bits _ G cells hc
    (by rw [layerDigest_length _ (generateHash_length input) l]; exact hG) y hy

theorem pattern_bits_witness :
    (∀ x, x < 9 / 2 →
      (((x, 0) ∈ (layerCells (layerDigest (generateHash []) 0) 9).getD []) ↔
        Nat.testBit ((layerDigest (generateHash []) 0).getD 0 0) (x % 8) = true) ∧
      ((x, 0) ∈ (layerCells (layerDigest (generateHash []) 0) 9).getD [] →
        (9 - 1 - x, 0) ∈ (layerCells (layerDigest (generateHash []) 0) 9).getD [])) ∧
    (9 % 2 = 1 →
      (((9 / 2, 0) ∈ (layerCells (layerDigest (generateHash []) 0) 9).getD []) ↔
        Nat.testBit ((layerDigest (generateHash []) 0).getD 0 0) ((9 / 2) % 8) = true)) :=
  pattern_bits [] 0 9 _ rfl (by decide) 0 (by decide)

/-- C3: for every input, every layer and every row, the layer's boolean
pattern is left-right symmetric: column `cx` is on exactly when column
`gridSize-1-cx` is on. -/
theorem pattern_symmetric (input : List Nat) (l G : Nat) (cells : List (Nat × Nat))
    (hc : layerCells (layerDigest (generateHash input) l) G = some cells)
    (y cx : Nat) (hcx : cx < G) :
    ((cx, y) ∈ cells) ↔ ((G - 1 - cx, y) ∈ cells) :=
  layerCells_symm _ G cells hc y cx hcx

theorem pattern_symmetric_witness :
    ((2, 0) ∈ (layerCells (layerDigest (generateHash []) 1) 8).getD []) ↔
      ((8 - 1 - 2, 0) ∈ (layerCells (layerDigest (generateHash []) 1) 8).getD []) :=
  pattern_symmetric [] 1 8 _ rfl 0 2 (by decide)

/-- C4: for every positive `gridSize` and `imageSize`, the grid-cell
destination rectangles used by `drawPixel` tile the image exactly: every
pixel of the `imageSize × imageSize` buffer lies in the rectangle of exactly
one grid cell, and no rectangle reaches outside the buffer. -/
theorem raster_no_gaps (G I : Nat) (hG : 0 < G) (hI : 0 < I) :
    (∀ px py : Nat, px < I → py < I →
      ∃! cell : Nat × Nat, cell.1 < G ∧ cell.2 < G ∧
        coversB I G I cell.1 cell.2 px py = true) ∧
    (∀ gx gy px py : Nat, coversB I G I gx gy px py = true → px < I ∧ py < I) := by
  constructor
  · intro px py hpx hpy
    obtain ⟨x0, ⟨hxG, hxa, hxb⟩, hxu⟩ := cell_partition_one G I hG hI px hpx
    obtain ⟨y0, ⟨hyG, hya, hyb⟩, hyu⟩ := cell_partition_one G I hG hI py hpy
    refine ⟨(x0, y0), ⟨hxG, hyG, ?_⟩, ?_⟩
    · rw [coversB_eq_true]
      exact ⟨hxa, lt_min hxb hpx, hya, lt_min hyb hpy⟩
    · rintro ⟨gx, gy⟩ ⟨hgx, hgy, hcov⟩
      rw [coversB_eq_true] at hcov
      obtain ⟨ha1, ha2, ha3, ha4⟩ := hcov
      have hx := hxu gx ⟨hgx, ha1, lt_of_lt_of_le ha2 (min_le_left _ _)⟩
      have hy := hyu gy ⟨hgy, ha3, lt_of_lt_of_le ha4 (min_le_left _ _)⟩
      subst hx
      subst hy
      rfl
  · intro gx gy px py hcov
    rw [coversB_eq_true] at hcov
    exact ⟨lt_of_lt_of_le hcov.2.1 (min_le_right _ _),
      lt_of_lt_of_le hcov.2.2.2 (min_le_right _ _)⟩

theorem raster_no_gaps_witness :
    (∀ px py : Nat, px < 100 → py < 100 →
      ∃! cell : Nat × Nat, cell.1 < 8 ∧ cell.2 < 8 ∧
        coversB 100 8 100 cell.1 cell.2 px py = true) ∧
    (∀ gx gy px py : Nat, coversB 100 8 100 gx gy px py = true →
      px < 100 ∧ py < 100) :=
  raster_no_gaps 8 100 (by decide) (by decide)

/-- C5: layers are composited in drawing order with full overwrite and no
alpha blending.  When a configuration resolves to two layers and a grid cell
is on in both layers' patterns, every pixel of that cell's rectangle in the
final buffer equals layer 1's resolved color exactly (whatever its alpha
channel), never layer 0's color or a blend. -/
theorem compositing_overwrite (input : List Nat) (opts : List Opt) (o : options)
    (h : resolveOptions (generateHash input) opts = some o) (hL : o.layers = 2)
    (cells0 cells1 : List (Nat × Nat))
    (h0 : layerCells (layerDigest (generateHash input) 0) o.gridSize.toNat = some cells0)
    (h1 : layerCells (layerDigest (generateHash input) 1) o.gridSize.toNat = some cells1)
    (cx cy : Nat) (hc0 : (cx, cy) ∈ cells0) (hc1 : (cx, cy) ∈ cells1)
    (img : Image) (hm : Make input opts = some img) (px py : Nat)
    (hp : coversB o.size.toNat o.gridSize.toNat o.size.toNat cx cy px py = true) :
    img.pix px py = resolveLayerColor o.fgColors 1 (layerDigest (generateHash input) 1) := by
  by_cases halloc : 4 * (o.size.toNat * o.size.toNat) ≤ maxAlloc
  case neg =>
    rw [Make, h, Option.some_bind, newRGBA, if_neg halloc] at hm
    simp at hm
  rw [Make_two_layers input opts o h hL halloc cells0 cells1 h0 h1] at hm
  injection hm with hm
  subst hm
  rw [drawLayer_pix]
  have hany : (cells1.any fun cell =>
      coversB (drawLayer { size := o.size.toNat, pix := fun _ _ => o.bgColor } cells0
        (resolveLayerColor o.fgColors 0 (layerDigest (generateHash input) 0))
        o.gridSize.toNat o.size.toNat).size o.gridSize.toNat o.size.toNat
        cell.1 cell.2 px py) = true := by
    apply List.any_eq_true.mpr
    refine ⟨(cx, cy), hc1, ?_⟩
    rw [drawLayer_size]
    exact hp
  rw [if_pos hany]

theorem compositing_overwrite_witness :
    ((Make [] [Opt.WithLayers 2]).getD ⟨0, fun _ _ => sentinel⟩).pix 16 0 =
      resolveLayerColor
        ({ defaultOptions (generateHash []) with layers := 2 } : options).fgColors 1
        (layerDigest (generateHash []) 1) :=
  compositing_overwrite [] [Opt.WithLayers 2]
    { defaultOptions (generateHash []) with layers := 2 } rfl rfl
    ((layerCells (layerDigest (generateHash []) 0) 8).getD [])
    ((layerCells (layerDigest (generateHash []) 1) 8).getD [])
    rfl rfl 2 0 (by decide) (by decide)
    ((Make [] [Opt.WithLayers 2]).getD ⟨0, fun _ _ => sentinel⟩) rfl 16 0 (by decide)

/-- C6 counterexample: `Make` is not total over all validated grid sizes.
`WithGridSize 33` passes the `g > 8` validation, but generation then indexes
the 32-character hex digest at row 32 and panics (modelled as `none`). -/
theorem make_gridsize33_panics : Make [] [Opt.WithGridSize 33] = none := rfl

/-- C6 (amended): generation completes normally for every input and every
override sequence that option application accepts, provided the resolved
grid size is at most 32 — the length of the hex digest a layer's rows
index — and the resolved image size is at most 2^23 - 1, so that the
4·size² pixel buffer stays within the 64-bit runtime's allocation limit.
(A grid size beyond 32 panics with an index-out-of-range error, as
`make_gridsize33_panics` shows; an accepted size beyond the allocation
limit panics inside `image.NewRGBA`, as `make_huge_size_panics` shows.) -/
theorem make_total_amended (input : List Nat) (opts : List Opt) (o : options)
    (h : resolveOptions (generateHash input) opts = some o)
    (hG : o.gridSize ≤ 32) (hS : o.size ≤ 8388607) :
    ∃ img, Make input opts = some img := by
  have hGn : o.gridSize.toNat ≤ 32 := by omega
  have hSn : o.size.toNat ≤ 8388607 := by omega
  have hmul : o.size.toNat * o.size.toNat ≤ 8388607 * 8388607 :=
    Nat.mul_le_mul hSn hSn
  have halloc : 4 * (o.size.toNat * o.size.toNat) ≤ maxAlloc := by
    unfold maxAlloc
    omega
  obtain ⟨r, hr⟩ := foldlM_applyLayer_isSome (generateHash input) o
    (generateHash_length input) hGn (List.range o.layers.toNat)
    { size := o.size.toNat, pix := fun _ _ => o.bgColor }
  refine ⟨r, ?_⟩
  rw [Make, h, Option.some_bind, newRGBA, if_pos halloc, Option.some_bind]
  exact hr

theorem make_total_amended_witness :
    ∃ img, Make [] [Opt.WithGridSize 32] = some img :=
  make_total_amended [] [Opt.WithGridSize 32]
    { defaultOptions (generateHash []) with gridSize := 32 } rfl (by decide) (by decide)

/-- The allocation panic the amended C6 excludes: `WithSize (2^23)` passes
the `s ≥ 64` validation, but the 4·size² pixel buffer then exceeds the
64-bit runtime's allocation limit and `image.NewRGBA` panics. -/
theorem make_huge_size_panics : Make [] [Opt.WithSize 8388608] = none := rfl

/-- C7: layer 0 uses the digest of the input and each later layer re-hashes
the previous layer's digest; a layer's color is the `fgColors` entry at its
index when one exists and is not the all-zero sentinel, and otherwise is
`(digest[0], digest[1], digest[2], 255)` from the layer's own digest; and
the layer loop draws with exactly this digest and color. -/
theorem layer_color_rule (hash : List Nat) (o : options) (img : Image)
    (fg : List Color) (l : Nat) (d : List Nat) :
    layerDigest hash 0 = hash ∧
    (∀ k, layerDigest hash (k + 1) = generateHash (layerDigest hash k)) ∧
    (resolveLayerColor fg l d =
      if l < fg.length ∧ fg.getD l sentinel ≠ sentinel then fg.getD l sentinel
      else derivedColor d) ∧
    applyLayer hash o img l =
      (layerCells (layerDigest hash l) o.gridSize.toNat).bind fun cells =>
        some (drawLayer img cells
          (resolveLayerColor o.fgColors l (layerDigest hash l))
          o.gridSize.toNat o.size.toNat) := by
  refine ⟨rfl, fun k => rfl, ?_, rfl⟩
  have hdef : resolveLayerColor fg l d =
      if l < fg.length then
        (if fg.getD l sentinel = sentinel then derivedColor d else fg.getD l sentinel)
      else derivedColor d := rfl
  rw [hdef]
  by_cases h1 : l < fg.length
  · rw [if_pos h1]
    by_cases h2 : fg.getD l sentinel = sentinel
    · rw [if_pos h2, if_neg (by tauto)]
    · rw [if_neg h2, if_pos ⟨h1, h2⟩]
  · rw [if_neg h1, if_neg (by tauto)]

/-- C8: invalid overrides are silent no-ops that keep the previous value and
never error: `WithSize s` for `s < 64` leaves `size` unchanged while
`WithSize 512` sets it to 512; `WithGridSize g` for `g ≤ 8` leaves
`gridSize` unchanged while larger `g` sets it; `WithLayers n` outside
`[1, 3]` leaves `layers` unchanged while `n` in `[1, 3]` sets it exactly. -/
theorem option_validation (o : options) (s g n : Int) :
    applyOpt (.WithSize s) o = some (if s < 64 then o else { o with size := s }) ∧
    applyOpt (.WithSize 512) o = some { o with size := 512 } ∧
    applyOpt (.WithGridSize g) o =
      some (if g ≤ 8 then o else { o with gridSize := g }) ∧
    applyOpt (.WithLayers n) o =
      some (if n < 1 ∨ 3 < n then o else { o with layers := n }) := by
  refine ⟨?_, rfl, ?_, ?_⟩
  · simp only [applyOpt, Option.some.injEq]
    by_cases hs : s < 64
    · rw [if_neg (by omega), if_pos hs]
    · rw [if_pos (by omega), if_neg hs]
  · simp only [applyOpt, Option.some.injEq]
    by_cases hg : g ≤ 8
    · rw [if_neg (by omega), if_pos hg]
    · rw [if_pos (by omega), if_neg hg]
  · simp only [applyOpt, Option.some.injEq]
    by_cases hn : n < 1 ∨ 3 < n
    · rw [if_neg (by omega), if_pos hn]
    · rw [if_pos (by omega), if_neg hn]

/-- C9: applying `WithLayerColor 2` with color (0,0,255,255) to a
configuration whose color list has length 1 grows the list to length 3,
leaving index 0 unchanged, filling index 1 with the all-zero sentinel, and
setting index 2 to (0,0,255,255). -/
theorem withLayerColor_grows (o : options) (h : o.fgColors.length = 1) :
    applyOpt (.WithLayerColor 2 0 0 255 255) o =
      some { o with fgColors :=
        [o.fgColors.getD 0 sentinel, sentinel, ⟨0, 0, 255, 255⟩] } := by
  rcases hfc : o.fgColors with _ | ⟨c0, tl⟩
  · rw [hfc] at h
    simp at h
  · have htl : tl = [] := by
      rw [hfc] at h
      simpa using h
    subst htl
    simp only [applyOpt]
    rw [if_neg (by omega), hfc]
    rfl

theorem withLayerColor_grows_witness :
    applyOpt (.WithLayerColor 2 0 0 255 255)
        ⟨64, 8, ⟨240, 240, 240, 255⟩, [⟨1, 2, 3, 255⟩], 1⟩ =
      some ⟨64, 8, ⟨240, 240, 240, 255⟩,
        [⟨1, 2, 3, 255⟩, sentinel, ⟨0, 0, 255, 255⟩], 1⟩ :=
  withLayerColor_grows ⟨64, 8, ⟨240, 240, 240, 255⟩, [⟨1, 2, 3, 255⟩], 1⟩ rfl

/-- C10: `WithFgColor` replaces the whole layer-color list with the
single-element list of the given color, discarding colors previously set for
higher layer indices, so in a later multi-layer render every layer `l ≥ 1`
falls back to its digest-derived color. -/
theorem withFgColor_replaces (o : options) (r g b a : Nat) (l : Nat) (hl : 1 ≤ l)
    (d : List Nat) :
    applyOpt (.WithFgColor r g b a) o = some { o with fgColors := [⟨r, g, b, a⟩] } ∧
    resolveLayerColor [⟨r, g, b, a⟩] l d = derivedColor d := by
  refine ⟨rfl, ?_⟩
  have h1 : ¬ l < ([(⟨r, g, b, a⟩ : Color)] : List Color).length := by
    simp only [List.length_singleton]
    omega
  rw [resolveLayerColor, if_neg h1]

theorem withFgColor_replaces_witness :
    applyOpt (.WithFgColor 9 8 7 6)
        ⟨64, 8, ⟨240, 240, 240, 255⟩, [⟨1, 2, 3, 255⟩, ⟨4, 5, 6, 255⟩], 3⟩ =
      some ⟨64, 8, ⟨240, 240, 240, 255⟩, [⟨9, 8, 7, 6⟩], 3⟩ ∧
    resolveLayerColor [⟨9, 8, 7, 6⟩] 1 [65, 66, 67] = derivedColor [65, 66, 67] :=
  withFgColor_replaces ⟨64, 8, ⟨240, 240, 240, 255⟩, [⟨1, 2, 3, 255⟩, ⟨4, 5, 6, 255⟩], 3⟩
    9 8 7 6 1 (by decide) [65, 66, 67]
